import Mathlib

/-!
Verification of the glue-shell toolkit against its specification.

The development shallowly embeds the relevant parts of the C++ sources:
strings are modelled as Lean `String`/`List Char`, the `int32_t` width and
row-width counters as `Int` (the source never exercises overflow on the
inputs the claims quantify over), process-level effects (pipe reads, the
`fatal` abort helper) as explicit event lists and outcome types.
-/

namespace Crew

/-! ## TextWrapper: `crew::toRows` (src/lib/terminal/terminal.cpp) -/

/-- The four spaces a tab is expanded to (`next.append("    ")`). -/
def spaces4 : List Char := [' ', ' ', ' ', ' ']

/-- Shallow embedding of the loop of `crew::toRows`.  State: processed
suffix `cs`, accumulated rows `result`, current row `next`, current
`rowWidth`.  The C++ loop begins each iteration with
`if (rowWidth == width) pushRow();`; that loop-top push is inlined here as
the outer `if rowWidth = width` branch (whose row state after the push is
`next = []`, `rowWidth = 0`), after which the character dispatch of the
loop body is reproduced verbatim: a tab pushes the row first when
`rowWidth + 4 >= width` and then appends four spaces, a newline pushes the
row, any other character is appended.  After the loop a non-empty partial
row is emitted. -/
def wrapGo (width : Int) (cs : List Char) (result : List String)
    (next : List Char) (rowWidth : Int) : List String :=
  match cs with
  | [] => if next = [] then result else result ++ [String.mk next]
  | c :: cs' =>
    if rowWidth = width then
      -- loop-top pushRow has fired: row state is ([], 0)
      if c = '\t' then
        if (0 : Int) + 4 ≥ width then
          wrapGo width cs' ((result ++ [String.mk next]) ++ [String.mk []]) spaces4 4
        else
          wrapGo width cs' (result ++ [String.mk next]) spaces4 4
      else if c = '\n' then
        wrapGo width cs' ((result ++ [String.mk next]) ++ [String.mk []]) [] 0
      else
        wrapGo width cs' (result ++ [String.mk next]) [c] 1
    else
      if c = '\t' then
        if rowWidth + 4 ≥ width then
          wrapGo width cs' (result ++ [String.mk next]) spaces4 4
        else
          wrapGo width cs' result (next ++ spaces4) (rowWidth + 4)
      else if c = '\n' then
        wrapGo width cs' (result ++ [String.mk next]) [] 0
      else
        wrapGo width cs' result (next ++ [c]) (rowWidth + 1)

/-- `crew::toRows(content, width)`: wrap `content` into display rows of
width `width`. -/
def toRows (content : String) (width : Int) : List String :=
  wrapGo width content.data [] [] 0

/-- Expansion of one character as performed by `toRows` on the content it
copies into rows: a tab becomes four spaces, a newline is dropped (it only
forces a row break), anything else is kept. -/
def expandChar (c : Char) : List Char :=
  if c = '\t' then spaces4 else if c = '\n' then [] else [c]

/-- Character-wise expansion of a whole content string. -/
def expand : List Char → List Char
  | [] => []
  | c :: cs => expandChar c ++ expand cs

/-- Concatenation of the characters of a list of rows (row boundaries
ignored). -/
def rowsChars : List String → List Char
  | [] => []
  | r :: rs => r.data ++ rowsChars rs

/-! Specification-side wrapper for claim C2.  `wrapSpecGo` follows the
claim's wording: a tab appends exactly four spaces and forces a row break
first when `tabBreak rowWidth width` holds; a newline always forces a row
break (possibly emitting an empty row); any other character is appended
and forces a row break once the row reaches exactly `width`; a final
non-empty partial row is emitted.  The break-on-reaching-`width` is taken
eagerly, right after the append that fills the row. -/

/-- Claimed tab-break predicate: break only when the expansion would
strictly exceed the width. -/
def tabBreakClaimed (rowWidth width : Int) : Bool := rowWidth + 4 > width

/-- Actual tab-break predicate of the code: break when the expansion would
reach or exceed the width. -/
def tabBreakActual (rowWidth width : Int) : Bool := rowWidth + 4 ≥ width

/-- Specification wrapper loop, parameterised by the tab-break predicate
(see the claim text of C2). -/
def wrapSpecGo (tabBreak : Int → Int → Bool) (width : Int) (cs : List Char)
    (result : List String) (next : List Char) (rowWidth : Int) : List String :=
  match cs with
  | [] => if next = [] then result else result ++ [String.mk next]
  | c :: cs' =>
    if c = '\t' then
      if tabBreak rowWidth width then
        -- break first, then append the four spaces; if they already fill
        -- the row exactly, that row is emitted at once
        if (0 : Int) + 4 = width then
          wrapSpecGo tabBreak width cs'
            ((result ++ [String.mk next]) ++ [String.mk spaces4]) [] 0
        else
          wrapSpecGo tabBreak width cs' (result ++ [String.mk next]) spaces4 4
      else
        if rowWidth + 4 = width then
          wrapSpecGo tabBreak width cs' (result ++ [String.mk (next ++ spaces4)]) [] 0
        else
          wrapSpecGo tabBreak width cs' result (next ++ spaces4) (rowWidth + 4)
    else if c = '\n' then
      wrapSpecGo tabBreak width cs' (result ++ [String.mk next]) [] 0
    else
      if rowWidth + 1 = width then
        wrapSpecGo tabBreak width cs' (result ++ [String.mk (next ++ [c])]) [] 0
      else
        wrapSpecGo tabBreak width cs' result (next ++ [c]) (rowWidth + 1)

/-- Specification wrapper on a whole content string. -/
def wrapRows (tabBreak : Int → Int → Bool) (content : String) (width : Int) :
    List String :=
  wrapSpecGo tabBreak width content.data [] [] 0

/-! ## TerminalController: `crew::readKey` (src/lib/terminal/terminal.cpp)
and the `EditorKey` codes (src/lib/terminal/include/terminal/terminal.hpp).

Input is modelled as the list of byte values that will arrive on standard
input; an exhausted list stands for a read that finds no further byte
(the 1-byte reads after an ESC time out and return short in raw mode). -/

/-- `EditorKey::Backspace`. -/
def backspaceKey : Nat := 127

/-- `EditorKey::ArrowLeft`. -/
def arrowLeft : Nat := 1000

/-- `EditorKey::ArrowRight`. -/
def arrowRight : Nat := 1001

/-- `EditorKey::ArrowUp`. -/
def arrowUp : Nat := 1002

/-- `EditorKey::ArrowDown`. -/
def arrowDown : Nat := 1003

/-- `EditorKey::DeleteKey`. -/
def deleteKey : Nat := 1004

/-- `EditorKey::HomeKey`. -/
def homeKey : Nat := 1005

/-- `EditorKey::EndKey`. -/
def endKey : Nat := 1006

/-- `EditorKey::PageUp`. -/
def pageUp : Nat := 1007

/-- `EditorKey::PageDown`. -/
def pageDown : Nat := 1008

/-- The ESC-sequence decoding of `readKey` after the initial byte 27 (ESC)
has been read.  Byte constants: 91 is `[`, 79 is `O`, 48–57 are `0`–`9`,
126 is `~`, 65–68 are `A`–`D`, 72 is `H`, 70 is `F`.  An exhausted input
(a short read) yields 27, the bare Escape. -/
def readKeyEsc : List Nat → Nat
  | [] => 27
  | [_] => 27
  | s0 :: s1 :: rest2 =>
    if s0 = 91 then
      if 48 ≤ s1 ∧ s1 ≤ 57 then
        match rest2 with
        | [] => 27
        | s2 :: _ =>
          if s2 = 126 then
            if s1 = 49 then homeKey
            else if s1 = 51 then deleteKey
            else if s1 = 52 then endKey
            else if s1 = 53 then pageUp
            else if s1 = 54 then pageDown
            else if s1 = 55 then homeKey
            else if s1 = 56 then endKey
            else 27
          else 27
      else
        if s1 = 65 then arrowUp
        else if s1 = 66 then arrowDown
        else if s1 = 67 then arrowRight
        else if s1 = 68 then arrowLeft
        else if s1 = 72 then homeKey
        else if s1 = 70 then endKey
        else 27
    else if s0 = 79 then
      if s1 = 72 then homeKey
      else if s1 = 70 then endKey
      else 27
    else 27

/-- Shallow embedding of `crew::readKey`: the first read blocks until a
byte arrives (`none` when no byte ever arrives); byte 27 starts
ESC-sequence decoding; every other byte is returned as its literal
value. -/
def readKey : List Nat → Option Nat
  | [] => none
  | c :: rest => if c = 27 then some (readKeyEsc rest) else some c

/-- The claim's decode table, read off the spec: known byte sequences
after an ESC map to named keys, everything else (unmatched or incomplete)
falls back to the bare Escape, 27. -/
def escTable (rest : List Nat) : Nat :=
  if rest.take 2 = [91, 65] then arrowUp
  else if rest.take 2 = [91, 66] then arrowDown
  else if rest.take 2 = [91, 67] then arrowRight
  else if rest.take 2 = [91, 68] then arrowLeft
  else if rest.take 2 = [91, 72] then homeKey
  else if rest.take 2 = [79, 72] then homeKey
  else if rest.take 3 = [91, 49, 126] then homeKey
  else if rest.take 3 = [91, 55, 126] then homeKey
  else if rest.take 2 = [91, 70] then endKey
  else if rest.take 2 = [79, 70] then endKey
  else if rest.take 3 = [91, 52, 126] then endKey
  else if rest.take 3 = [91, 56, 126] then endKey
  else if rest.take 3 = [91, 51, 126] then deleteKey
  else if rest.take 3 = [91, 53, 126] then pageUp
  else if rest.take 3 = [91, 54, 126] then pageDown
  else 27

/-- Specification-side key reader following the claim's table. -/
def readKeySpec : List Nat → Option Nat
  | [] => none
  | c :: rest => if c = 27 then some (escTable rest) else some c

/-! ## The `fatal` helper (src/lib/common/include/common/util.hpp)

`crew::fatal(format, args...)` prints `fmt::format(format, args...)` to
the error stream and calls `exit(1)`. -/

/-- Rendering of `fmt::format` for a format string that contains no
replacement fields: the format string itself; surplus arguments are
permitted and ignored (fmt and `std::format` semantics).  Every `fatal`
call site modelled in this file passes a brace-free format string. -/
def fmtNoFields (format : String) (_args : List String) : String := format

/-! ## CommandValidator: `crew::Vm` (src/lib/include/interpreter.hpp)

`std::map` registries are modelled as association lists observed only
through lookup; `m_params[id] = ...` (overwrite) is `assocSet` and
`m_commands.try_emplace(id, ...)` (keep first) is `tryEmplace`.  The
`fatal` abort of `getParam` on an unknown id is modelled with
`Except String`; the stable `VmParam*`/`VmCommand*` pointers are modelled
by storing the pointee values. -/

/-- `crew::VmParam`: a named positional parameter type with its
validation predicate. -/
structure VmParam where
  type : String
  validate : String → Bool

/-- `crew::VmCommand`: the ordered parameter list of a registered
command. -/
structure VmCommand where
  posParams : List VmParam

/-- `VmCommand::numParams`. -/
def VmCommand.numParams (c : VmCommand) : Nat := c.posParams.length

/-- The two registries of `crew::Vm`. -/
structure Vm where
  params : List (String × VmParam)
  commands : List (String × VmCommand)

/-- Map update with overwrite (`std::map::operator[] =`): replaces the
entry under an existing key, inserts otherwise. -/
def assocSet {α : Type} : List (String × α) → String → α → List (String × α)
  | [], k, v => [(k, v)]
  | (k', v') :: rest, k, v =>
    if k' = k then (k, v) :: rest else (k', v') :: assocSet rest k v

/-- Map insertion without overwrite (`std::map::try_emplace`): keeps the
entry under an existing key, inserts otherwise. -/
def tryEmplace {α : Type} : List (String × α) → String → α → List (String × α)
  | [], k, v => [(k, v)]
  | (k', v') :: rest, k, v =>
    if k' = k then (k', v') :: rest else (k', v') :: tryEmplace rest k v

/-- `Vm::addParam`: registers or replaces a named parameter type. -/
def Vm.addParam (vm : Vm) (id : String) (validator : String → Bool) : Vm :=
  { vm with params := assocSet vm.params id { type := id, validate := validator } }

/-- `Vm::getParam`: resolves a parameter id, `fatal("invalid param id ...")`
on an unknown id (the abort is the `Except.error`). -/
def Vm.getParamE (vm : Vm) (id : String) : Except String VmParam :=
  match vm.params.lookup id with
  | some p => Except.ok p
  | none => Except.error (fmtNoFields "invalid param id {:s}" [id])

/-- The parameter-resolution loop of `Vm::addCommand`: resolves each id in
order, aborting at the first unknown one. -/
def Vm.resolveParams (vm : Vm) : List String → Except String (List VmParam)
  | [] => Except.ok []
  | p :: ps => do
    let v ← vm.getParamE p
    let vs ← vm.resolveParams ps
    pure (v :: vs)

/-- `Vm::addCommand`: resolves all parameter ids (fatal on an unknown
one), then `try_emplace`s the command. -/
def Vm.addCommandE (vm : Vm) (id : String) (paramIds : List String) :
    Except String Vm := do
  let ps ← vm.resolveParams paramIds
  pure { vm with commands := tryEmplace vm.commands id { posParams := ps } }

/-- `Vm::findCommandPtr`: the registered command, or `none` for the null
pointer. -/
def Vm.findCommandPtr (vm : Vm) (name : String) : Option VmCommand :=
  vm.commands.lookup name

/-- `crew::ParseResult`. -/
structure ParseResult where
  commandName : String
  command : Option VmCommand
  args : List String

/-- `ParseResult::numArgs`: the argument count, raised to the declared
parameter count when a command matched. -/
def ParseResult.numArgs (r : ParseResult) : Nat :=
  match r.command with
  | none => r.args.length
  | some c => max r.args.length c.numParams

/-- `Vm::parseTokens`. -/
def Vm.parseTokens (vm : Vm) (tokens : List String) : Option ParseResult :=
  match tokens with
  | [] => none
  | t :: rest =>
    some { commandName := t, command := vm.findCommandPtr t, args := rest }

/-- `Vm::parseTokens`, written in the same abort-capable monad as
`addCommandE`: the parse path calls only `findCommandPtr` (which has no
`fatal` branch) and list operations, so no abort can occur. -/
def Vm.parseTokensE (vm : Vm) (tokens : List String) :
    Except String (Option ParseResult) := do
  match tokens with
  | [] => pure none
  | t :: rest => do
    let cmd := vm.findCommandPtr t
    pure (some { commandName := t, command := cmd, args := rest })

/-- Non-empty-string predicate used by the repl's registrations
(`vm.addParam("string", ...)` in src/app/crew-repl.cpp). -/
def nonEmptyPred (s : String) : Bool := !s.isEmpty

/-- Concrete registry with the parameter type `"string"` registered and no
commands. -/
def vmW0 : Vm :=
  { params := [("string", { type := "string", validate := nonEmptyPred })],
    commands := [] }

/-- `vmW0` after registering the command `"print1"` with one `"string"`
parameter. -/
def vmW1 : Vm :=
  { params := [("string", { type := "string", validate := nonEmptyPred })],
    commands :=
      [("print1",
        { posParams := [{ type := "string", validate := nonEmptyPred }] })] }

/-! ## ProcessLauncher: `crew::Command` (src/lib/common/command.cpp)

The spawn itself is abstracted by the child's exit code; `Command::run`'s
dry-run early return and exit-code policy are modelled directly.  A
`fatal` call is the `RunOutcome.fatalExit` outcome with exit status 1. -/

/-- `crew::OnError`. -/
inductive OnError
  | Fatal
  | Return
deriving DecidableEq

/-- The configuration of a `crew::Command` relevant to `run`. -/
structure Command where
  command : String
  args : List String
  cd : Option String
  envOverride : List (String × String)
  onError : OnError
  verbose : Bool
  dryRun : Bool

/-- `Command::toString`: program and arguments, space-joined. -/
def Command.toString (c : Command) : String :=
  c.args.foldl (fun r a => r ++ " " ++ a) c.command

/-- Outcome of a `run` invocation: a returned exit code, or a `fatal`
termination of the caller with a diagnostic message and exit status. -/
inductive RunOutcome
  | ret (code : Int)
  | fatalExit (message : String) (status : Int)
deriving DecidableEq

/-- `Command::run`, given the exit code the dispatched child delivers:
dry-run returns 0 without spawning; a nonzero result is returned under
`OnError::Return` and is
`fatal("command \"", toString(), "\" failed with non-zero exit status: ", result)`
under `OnError::Fatal` — whose first argument is the fmt format string, so
the rendered diagnostic is the bare format text. -/
def Command.run (cmd : Command) (childCode : Int) : RunOutcome :=
  if cmd.dryRun then RunOutcome.ret 0
  else if childCode ≠ 0 then
    match cmd.onError with
    | OnError.Return => RunOutcome.ret childCode
    | OnError.Fatal =>
        RunOutcome.fatalExit
          (fmtNoFields "command \""
            [cmd.toString, "\" failed with non-zero exit status: ",
              ToString.toString childCode]) 1
  else RunOutcome.ret childCode

/-- `Command("false")` with the `FatalOnNonzero` policy (the default). -/
def cmdFalse : Command :=
  { command := "false", args := [], cd := none, envOverride := [],
    onError := OnError.Fatal, verbose := false, dryRun := false }

/-- `Command("false")` with the `ReturnCode` policy. -/
def cmdFalseReturn : Command :=
  { cmdFalse with onError := OnError.Return }

/-- Does `pat` occur at the front of `l`? -/
def segStarts : List Char → List Char → Bool
  | [], _ => true
  | _ :: _, [] => false
  | p :: ps, c :: cs => p == c && segStarts ps cs

/-- Does `pat` occur contiguously anywhere in `l`? -/
def hasSeg (pat : List Char) : List Char → Bool
  | [] => pat.isEmpty
  | c :: cs => segStarts pat (c :: cs) || hasSeg pat cs

/-! ## OutputPump: `pumpFdToStream` (src/lib/common/command.cpp)

A file descriptor is modelled by the list of results its successive
`read` calls deliver: a non-empty chunk, a length-0 return, or an error
with its `errno` class. -/

/-- The `errno` classes distinguished by `pumpFdToStream`. -/
inductive Errno
  | eintr
  | eio
  | other
deriving DecidableEq

/-- One `read` result. -/
inductive ReadEv
  | chunk (s : String)
  | eof
  | err (e : Errno)
deriving DecidableEq

/-- Outcome of a pump: normal completion with the captured bytes (the sink
flushed), a `fatal` termination, or a read that would block forever
because the event list is exhausted. -/
inductive PumpResult
  | done (captured : String)
  | fatalExit (message : String) (status : Int)
  | blocked (captured : String)
deriving DecidableEq

/-- `crew::pumpFdToStream`: drain the descriptor until a length-0 read,
retrying on `EINTR`, breaking on `EIO` (child side closed), and
`fatal("read() failed: ", strerror(errno))` on any other error; the sink
is flushed after the loop. -/
def pumpFdToStream : List ReadEv → String → PumpResult
  | [], acc => PumpResult.blocked acc
  | ev :: rest, acc =>
    match ev with
    | ReadEv.chunk s => pumpFdToStream rest (acc ++ s)
    | ReadEv.eof => PumpResult.done acc
    | ReadEv.err Errno.eintr => pumpFdToStream rest acc
    | ReadEv.err Errno.eio => PumpResult.done acc
    | ReadEv.err Errno.other =>
        PumpResult.fatalExit (fmtNoFields "read() failed: " ["strerror(errno)"]) 1

/-- Events the pump loop consumes without ending: data chunks and
interrupted reads. -/
def skippable : ReadEv → Bool
  | ReadEv.chunk _ => true
  | ReadEv.err Errno.eintr => true
  | _ => false

/-! ## Command::runPipe as an action trace (src/lib/common/command.cpp)

After closing the pipe write-ends, the parent pumps the stdout pipe into
the out sink, closes it, pumps the stderr pipe into the err sink, closes
it, and reaps the child.  The observable actions are recorded in order. -/

/-- Parent-side actions of `runPipe`. -/
inductive PipeAct
  | readOut
  | writeOut (s : String)
  | flushOut
  | closeOut
  | readErr
  | writeErr (s : String)
  | flushErr
  | closeErr
  | reapChild
deriving DecidableEq

/-- The action trace of one `pumpFdToStream` call (parameterised by the
read/write/flush actions of the stream being drained) together with
whether the pump completed normally (`false`: the process died on a fatal
read error, or the next read blocks forever). -/
def pumpTrace (rd : PipeAct) (wr : String → PipeAct) (fl : PipeAct) :
    List ReadEv → List PipeAct × Bool
  | [] => ([rd], false)
  | ev :: rest =>
    match ev with
    | ReadEv.chunk s =>
      let t := pumpTrace rd wr fl rest
      (rd :: wr s :: t.1, t.2)
    | ReadEv.eof => ([rd, fl], true)
    | ReadEv.err Errno.eintr =>
      let t := pumpTrace rd wr fl rest
      (rd :: t.1, t.2)
    | ReadEv.err Errno.eio => ([rd, fl], true)
    | ReadEv.err Errno.other => ([rd], false)

/-- The parent-side action trace of `Command::runPipe`, given the events
the two pipes deliver: the stdout pipe is drained and closed first, then
the stderr pipe, then the child is reaped.  A fatal pump terminates the
process, truncating the trace. -/
def runPipeTrace (outEvs errEvs : List ReadEv) : List PipeAct :=
  let outT := pumpTrace PipeAct.readOut PipeAct.writeOut PipeAct.flushOut outEvs
  if outT.2 then
    outT.1 ++ [PipeAct.closeOut] ++
      (let errT := pumpTrace PipeAct.readErr PipeAct.writeErr PipeAct.flushErr errEvs
       if errT.2 then errT.1 ++ [PipeAct.closeErr, PipeAct.reapChild] else errT.1)
  else outT.1

/-- Actions on the stdout pipe or the out sink. -/
def PipeAct.isOut : PipeAct → Bool
  | PipeAct.readOut => true
  | PipeAct.writeOut _ => true
  | PipeAct.flushOut => true
  | PipeAct.closeOut => true
  | _ => false

/-- Actions on the stderr pipe or the err sink. -/
def PipeAct.isErr : PipeAct → Bool
  | PipeAct.readErr => true
  | PipeAct.writeErr _ => true
  | PipeAct.flushErr => true
  | PipeAct.closeErr => true
  | _ => false

/-! ## tokenize (src/app/crew-repl.cpp)

`tokenize` splits on single spaces with `std::getline(stream, tok, ' ')`:
each call extracts up to the next space (consuming it) or the end of
input, and fails only when it starts at the end of input. -/

/-- One in-progress `getline` call with the characters read so far (in
reverse), followed by the rest of the splitting loop. -/
def tokGo (cur : List Char) : List Char → List String
  | [] => [String.mk cur.reverse]
  | c :: rest =>
    if c = ' ' then
      match rest with
      | [] => [String.mk cur.reverse]
      | _ :: _ => String.mk cur.reverse :: tokGo [] rest
    else
      tokGo (c :: cur) rest

/-- `crew::tokenize`: the `while (getline(...))` loop; the first call
fails immediately on empty input. -/
def tokenize (s : String) : List String :=
  match s.data with
  | [] => []
  | c :: cs => tokGo [] (c :: cs)

/-- No two consecutive spaces anywhere in the list. -/
def okSpacing : List Char → Bool
  | [] => true
  | [_] => true
  | a :: b :: rest => (!(a == ' ' && b == ' ')) && okSpacing (b :: rest)

end Crew

namespace Crew

/-! ## Helper lemmas for the wrapper -/

theorem data_mk (l : List Char) : (String.mk l).data = l := rfl

theorem rowsChars_append (a b : List String) :
    rowsChars (a ++ b) = rowsChars a ++ rowsChars b := by
  induction a with
  | nil => simp [rowsChars]
  | cons r rs ih => simp [rowsChars, ih]

theorem rowsChars_singleton (s : String) : rowsChars [s] = s.data := by
  simp [rowsChars]

/-- Concatenating the rows produced by the wrapper loop yields the rows
already accumulated, the current row, and the expansion of the remaining
characters. -/
theorem wrapGo_rowsChars (width : Int) (cs : List Char) :
    ∀ (result : List String) (next : List Char) (rowWidth : Int),
      rowsChars (wrapGo width cs result next rowWidth)
        = rowsChars result ++ next ++ expand cs := by
  induction cs with
  | nil =>
    intro result next rowWidth
    by_cases h : next = []
    · simp [wrapGo, h, expand]
    · simp [wrapGo, h, expand, rowsChars_append, rowsChars_singleton]
  | cons c cs' ih =>
    intro result next rowWidth
    simp only [wrapGo]
    split_ifs <;>
      simp_all [ih, rowsChars, rowsChars_append, rowsChars_singleton, data_mk,
        expand, expandChar, spaces4]

/-! Step equations for `wrapGo` (the C++ loop), split on the loop-top
pushRow condition. -/

theorem wrapGo_tab_brk (width : Int) (cs' : List Char) (result : List String)
    (next : List Char) (rowWidth : Int) (hrw : rowWidth ≠ width)
    (hb : rowWidth + 4 ≥ width) :
    wrapGo width ('\t' :: cs') result next rowWidth
      = wrapGo width cs' (result ++ [String.mk next]) spaces4 4 := by
  simp only [wrapGo]
  split_ifs <;> first | rfl | omega | simp_all

theorem wrapGo_tab_fit (width : Int) (cs' : List Char) (result : List String)
    (next : List Char) (rowWidth : Int) (hrw : rowWidth ≠ width)
    (hb : ¬rowWidth + 4 ≥ width) :
    wrapGo width ('\t' :: cs') result next rowWidth
      = wrapGo width cs' result (next ++ spaces4) (rowWidth + 4) := by
  simp only [wrapGo]
  split_ifs <;> first | rfl | omega | simp_all

theorem wrapGo_nl (width : Int) (cs' : List Char) (result : List String)
    (next : List Char) (rowWidth : Int) (hrw : rowWidth ≠ width) :
    wrapGo width ('\n' :: cs') result next rowWidth
      = wrapGo width cs' (result ++ [String.mk next]) [] 0 := by
  simp only [wrapGo]
  split_ifs <;> first | rfl | omega | simp_all

theorem wrapGo_chr (width : Int) (c : Char) (cs' : List Char)
    (result : List String) (next : List Char) (rowWidth : Int)
    (hrw : rowWidth ≠ width) (ht : c ≠ '\t') (hn : c ≠ '\n') :
    wrapGo width (c :: cs') result next rowWidth
      = wrapGo width cs' result (next ++ [c]) (rowWidth + 1) := by
  simp only [wrapGo]
  split_ifs <;> first | rfl | omega | simp_all

theorem wrapGo_top_tab_brk (width : Int) (cs' : List Char)
    (result : List String) (next : List Char)
    (hb : (0 : Int) + 4 ≥ width) :
    wrapGo width ('\t' :: cs') result next width
      = wrapGo width cs' ((result ++ [String.mk next]) ++ [String.mk []]) spaces4 4 := by
  simp only [wrapGo]
  split_ifs <;> first | rfl | omega | simp_all

theorem wrapGo_top_tab_fit (width : Int) (cs' : List Char)
    (result : List String) (next : List Char)
    (hb : ¬(0 : Int) + 4 ≥ width) :
    wrapGo width ('\t' :: cs') result next width
      = wrapGo width cs' (result ++ [String.mk next]) spaces4 4 := by
  simp only [wrapGo]
  split_ifs <;> first | rfl | omega | simp_all

theorem wrapGo_top_nl (width : Int) (cs' : List Char) (result : List String)
    (next : List Char) :
    wrapGo width ('\n' :: cs') result next width
      = wrapGo width cs' ((result ++ [String.mk next]) ++ [String.mk []]) [] 0 := by
  simp only [wrapGo]
  split_ifs <;> first | rfl | omega | simp_all

theorem wrapGo_top_chr (width : Int) (c : Char) (cs' : List Char)
    (result : List String) (next : List Char) (ht : c ≠ '\t') (hn : c ≠ '\n') :
    wrapGo width (c :: cs') result next width
      = wrapGo width cs' (result ++ [String.mk next]) [c] 1 := by
  simp only [wrapGo]
  split_ifs <;> first | rfl | omega | simp_all

/-! Step equations for the specification wrapper `wrapSpecGo`. -/

theorem wrapSpecGo_tab_brk_fill (tb : Int → Int → Bool) (width : Int)
    (cs' : List Char) (result : List String) (next : List Char) (rowWidth : Int)
    (htb : tb rowWidth width = true) (h4 : (0 : Int) + 4 = width) :
    wrapSpecGo tb width ('\t' :: cs') result next rowWidth
      = wrapSpecGo tb width cs' ((result ++ [String.mk next]) ++ [String.mk spaces4]) [] 0 := by
  simp only [wrapSpecGo]
  split_ifs <;> first | rfl | omega | simp_all

theorem wrapSpecGo_tab_brk (tb : Int → Int → Bool) (width : Int)
    (cs' : List Char) (result : List String) (next : List Char) (rowWidth : Int)
    (htb : tb rowWidth width = true) (h4 : ¬(0 : Int) + 4 = width) :
    wrapSpecGo tb width ('\t' :: cs') result next rowWidth
      = wrapSpecGo tb width cs' (result ++ [String.mk next]) spaces4 4 := by
  simp only [wrapSpecGo]
  split_ifs <;> first | rfl | omega | simp_all

theorem wrapSpecGo_tab_fill (tb : Int → Int → Bool) (width : Int)
    (cs' : List Char) (result : List String) (next : List Char) (rowWidth : Int)
    (htb : tb rowWidth width = false) (h4 : rowWidth + 4 = width) :
    wrapSpecGo tb width ('\t' :: cs') result next rowWidth
      = wrapSpecGo tb width cs' (result ++ [String.mk (next ++ spaces4)]) [] 0 := by
  simp only [wrapSpecGo]
  split_ifs <;> first | rfl | omega | simp_all

theorem wrapSpecGo_tab (tb : Int → Int → Bool) (width : Int)
    (cs' : List Char) (result : List String) (next : List Char) (rowWidth : Int)
    (htb : tb rowWidth width = false) (h4 : ¬rowWidth + 4 = width) :
    wrapSpecGo tb width ('\t' :: cs') result next rowWidth
      = wrapSpecGo tb width cs' result (next ++ spaces4) (rowWidth + 4) := by
  simp only [wrapSpecGo]
  split_ifs <;> first | rfl | omega | simp_all

theorem wrapSpecGo_nl (tb : Int → Int → Bool) (width : Int)
    (cs' : List Char) (result : List String) (next : List Char) (rowWidth : Int) :
    wrapSpecGo tb width ('\n' :: cs') result next rowWidth
      = wrapSpecGo tb width cs' (result ++ [String.mk next]) [] 0 := by
  simp only [wrapSpecGo]
  split_ifs <;> first | rfl | omega | simp_all

theorem wrapSpecGo_chr_fill (tb : Int → Int → Bool) (width : Int) (c : Char)
    (cs' : List Char) (result : List String) (next : List Char) (rowWidth : Int)
    (ht : c ≠ '\t') (hn : c ≠ '\n') (h1 : rowWidth + 1 = width) :
    wrapSpecGo tb width (c :: cs') result next rowWidth
      = wrapSpecGo tb width cs' (result ++ [String.mk (next ++ [c])]) [] 0 := by
  simp only [wrapSpecGo]
  split_ifs <;> first | rfl | omega | simp_all

theorem wrapSpecGo_chr (tb : Int → Int → Bool) (width : Int) (c : Char)
    (cs' : List Char) (result : List String) (next : List Char) (rowWidth : Int)
    (ht : c ≠ '\t') (hn : c ≠ '\n') (h1 : ¬rowWidth + 1 = width) :
    wrapSpecGo tb width (c :: cs') result next rowWidth
      = wrapSpecGo tb width cs' result (next ++ [c]) (rowWidth + 1) := by
  simp only [wrapSpecGo]
  split_ifs <;> first | rfl | omega | simp_all

/-- The C++ loop (`wrapGo`, which pushes a full row lazily at the top of
the next iteration) computes the same rows as the specification wrapper
with the actual tab-break predicate (which pushes a full row eagerly),
provided the width is positive.  The invariant carried is that the
current row's length equals `rowWidth`. -/
theorem wrapGo_eq_spec (width : Int) (hw : 0 < width) (cs : List Char) :
    ∀ (result : List String) (next : List Char) (rowWidth : Int),
      (next.length : Int) = rowWidth →
      wrapGo width cs result next rowWidth
        = (if rowWidth = width
            then wrapSpecGo tabBreakActual width cs (result ++ [String.mk next]) [] 0
            else wrapSpecGo tabBreakActual width cs result next rowWidth) := by
  induction cs with
  | nil =>
    intro result next rowWidth hlen
    by_cases hrw : rowWidth = width
    · have hne : next ≠ [] := by
        intro h
        subst h
        simp only [List.length_nil, Nat.cast_zero] at hlen
        omega
      simp [wrapGo, wrapSpecGo, hrw, hne]
    · simp [wrapGo, wrapSpecGo, hrw]
  | cons c cs' ih =>
    intro result next rowWidth hlen
    have hlen4 : ((spaces4.length : ℕ) : Int) = (4 : Int) := by simp [spaces4]
    have hlen0 : ((([] : List Char).length : ℕ) : Int) = (0 : Int) := by simp
    by_cases ht : c = '\t'
    · subst ht
      by_cases hrw : rowWidth = width
      · subst hrw
        rw [if_pos rfl]
        by_cases hb : (0 : Int) + 4 ≥ rowWidth
        · have htb : tabBreakActual 0 rowWidth = true := by
            simp only [tabBreakActual, ge_iff_le, decide_eq_true_eq]
            omega
          by_cases h4 : (0 : Int) + 4 = rowWidth
          · rw [wrapGo_top_tab_brk _ _ _ _ hb,
              wrapSpecGo_tab_brk_fill _ _ _ _ _ _ htb h4,
              ih _ _ _ hlen4, if_pos (by omega : (4 : Int) = rowWidth)]
          · rw [wrapGo_top_tab_brk _ _ _ _ hb,
              wrapSpecGo_tab_brk _ _ _ _ _ _ htb h4,
              ih _ _ _ hlen4, if_neg (by omega : ¬(4 : Int) = rowWidth)]
        · have htb : tabBreakActual 0 rowWidth = false := by
            simp only [tabBreakActual, ge_iff_le, decide_eq_false_iff_not]
            omega
          rw [wrapGo_top_tab_fit _ _ _ _ hb,
            wrapSpecGo_tab _ _ _ _ _ _ htb (by omega : ¬(0 : Int) + 4 = rowWidth),
            ih _ _ _ hlen4, if_neg (by omega : ¬(4 : Int) = rowWidth)]
          norm_num
      · rw [if_neg hrw]
        by_cases hb : rowWidth + 4 ≥ width
        · have htb : tabBreakActual rowWidth width = true := by
            simp only [tabBreakActual, ge_iff_le, decide_eq_true_eq]
            omega
          by_cases h4 : (0 : Int) + 4 = width
          · rw [wrapGo_tab_brk _ _ _ _ _ hrw hb,
              wrapSpecGo_tab_brk_fill _ _ _ _ _ _ htb h4,
              ih _ _ _ hlen4, if_pos (by omega : (4 : Int) = width)]
          · rw [wrapGo_tab_brk _ _ _ _ _ hrw hb,
              wrapSpecGo_tab_brk _ _ _ _ _ _ htb h4,
              ih _ _ _ hlen4, if_neg (by omega : ¬(4 : Int) = width)]
        · have htb : tabBreakActual rowWidth width = false := by
            simp only [tabBreakActual, ge_iff_le, decide_eq_false_iff_not]
            omega
          have hlen' : (((next ++ spaces4).length : ℕ) : Int) = rowWidth + 4 := by
            simp only [List.length_append, spaces4, List.length_cons,
              List.length_nil]
            push_cast
            omega
          by_cases h4 : rowWidth + 4 = width
          · rw [wrapGo_tab_fit _ _ _ _ _ hrw hb,
              wrapSpecGo_tab_fill _ _ _ _ _ _ htb h4,
              ih _ _ _ hlen', if_pos h4]
          · rw [wrapGo_tab_fit _ _ _ _ _ hrw hb,
              wrapSpecGo_tab _ _ _ _ _ _ htb h4,
              ih _ _ _ hlen', if_neg h4]
    · by_cases hn : c = '\n'
      · subst hn
        by_cases hrw : rowWidth = width
        · subst hrw
          rw [if_pos rfl, wrapGo_top_nl, wrapSpecGo_nl,
            ih _ _ _ hlen0, if_neg (by omega : ¬(0 : Int) = rowWidth)]
        · rw [if_neg hrw, wrapGo_nl _ _ _ _ _ hrw, wrapSpecGo_nl,
            ih _ _ _ hlen0, if_neg (by omega : ¬(0 : Int) = width)]
      · have hlen1 : ((([c] : List Char).length : ℕ) : Int) = (1 : Int) := by simp
        by_cases hrw : rowWidth = width
        · subst hrw
          rw [if_pos rfl, wrapGo_top_chr _ _ _ _ _ ht hn]
          by_cases h1 : (0 : Int) + 1 = rowWidth
          · rw [wrapSpecGo_chr_fill _ _ _ _ _ _ _ ht hn h1,
              ih _ _ _ hlen1, if_pos (by omega : (1 : Int) = rowWidth)]
            norm_num
          · rw [wrapSpecGo_chr _ _ _ _ _ _ _ ht hn h1,
              ih _ _ _ hlen1, if_neg (by omega : ¬(1 : Int) = rowWidth)]
            norm_num
        · rw [if_neg hrw]
          have hlen' : (((next ++ [c]).length : ℕ) : Int) = rowWidth + 1 := by
            simp only [List.length_append, List.length_cons, List.length_nil]
            push_cast
            omega
          by_cases h1 : rowWidth + 1 = width
          · rw [wrapGo_chr _ _ _ _ _ _ hrw ht hn,
              wrapSpecGo_chr_fill _ _ _ _ _ _ _ ht hn h1,
              ih _ _ _ hlen', if_pos h1]
          · rw [wrapGo_chr _ _ _ _ _ _ hrw ht hn,
              wrapSpecGo_chr _ _ _ _ _ _ _ ht hn h1,
              ih _ _ _ hlen', if_neg h1]

/-! ## Claims C1 and C2 -/

/-- C1 counterexample: re-joining the rows returned by `toRows` cannot
reconstruct the original content losslessly for content with trailing
newlines.  The contents `"a\n"` and `"a"` (both tab-free, so re-contraction
of tab expansions is the identity) produce the very same rows, hence no
reconstruction from the rows can recover both; in particular plain
concatenation of the rows of `"a\n"` does not reproduce `"a\n"`. -/
theorem C1_counterexample :
    toRows "a\n" 5 = ["a"] ∧ toRows "a" 5 = ["a"] ∧ ("a\n" : String) ≠ "a"
      ∧ String.join (toRows "a\n" 5) ≠ "a\n" := by
  decide

/-- C1 (amended): for every content string and every width > 0,
concatenating the rows returned by `toRows` (ignoring the inserted row
breaks) reproduces the original content with each literal tab replaced by
four spaces and each newline character removed; newline positions
themselves are not recoverable from the rows. -/
theorem C1_rows_concat (content : String) (width : Int) (hw : 0 < width) :
    rowsChars (toRows content width) = expand content.data := by
  rw [toRows, wrapGo_rowsChars]
  simp [rowsChars]

/-- C1 witness: the amended theorem applied at content `"ab\tcd"`,
width 10. -/
theorem C1_rows_concat_witness :
    (0 : Int) < 10
      ∧ rowsChars (toRows "ab\tcd" 10) = expand ("ab\tcd" : String).data :=
  ⟨by decide, C1_rows_concat "ab\tcd" 10 (by decide)⟩

/-- C2 counterexample: the claim says a tab forces a row break only when
`rowWidth + 4` strictly exceeds the width, but `toRows` breaks already
when `rowWidth + 4 ≥ width`.  At content `"ab\tc"` and width 6 the code
breaks before the tab (2 + 4 = 6), while the claimed rule would keep
`"ab    "` on one row. -/
theorem C2_counterexample :
    toRows "ab\tc" 6 = ["ab", "    c"]
      ∧ wrapRows tabBreakClaimed "ab\tc" 6 = ["ab    ", "c"]
      ∧ toRows "ab\tc" 6 ≠ wrapRows tabBreakClaimed "ab\tc" 6 := by
  decide

/-- C2 (amended): for every content string and width > 0, `toRows` follows
the claimed character rules with the tab-break condition corrected from
"strictly exceeds" to "reaches or exceeds" (`rowWidth + 4 ≥ width`): a tab
appends exactly four spaces, breaking the row first when the expansion
would reach or exceed the width; a newline always forces a row break
(possibly emitting an empty row); any other character is appended and
forces a row break once the row reaches exactly `width`; a final non-empty
partial row is emitted.  The claim's concrete examples hold. -/
theorem C2_wrap_rules :
    (∀ (content : String) (width : Int), 0 < width →
        toRows content width = wrapRows tabBreakActual content width)
      ∧ toRows "ab\tcd" 10 = ["ab    cd"]
      ∧ toRows "abcdef" 3 = ["abc", "def"]
      ∧ toRows "" 5 = []
      ∧ toRows "hello\nworld" 20 = ["hello", "world"] := by
  refine ⟨?_, by decide, by decide, by decide, by decide⟩
  intro content width hw
  have h := wrapGo_eq_spec width hw content.data [] [] 0 (by simp)
  rw [toRows, wrapRows, h, if_neg (by omega : ¬(0 : Int) = width)]

/-- C2 witness: the amended refinement applied at content `"ab\tc"`,
width 6. -/
theorem C2_wrap_rules_witness :
    (0 : Int) < 6 ∧ toRows "ab\tc" 6 = wrapRows tabBreakActual "ab\tc" 6 :=
  ⟨by decide, C2_wrap_rules.1 "ab\tc" 6 (by decide)⟩

/-! ## Claim C3 -/

/-- The ESC decoding of `readKey` agrees with the claim's table
everywhere. -/
theorem readKeyEsc_eq (rest : List Nat) : readKeyEsc rest = escTable rest := by
  rcases rest with _ | ⟨s0, rest1⟩
  · decide
  rcases rest1 with _ | ⟨s1, rest2⟩
  · simp [readKeyEsc, escTable]
  by_cases h0 : s0 = 91
  · subst h0
    by_cases hdig : 48 ≤ s1 ∧ s1 ≤ 57
    · obtain ⟨ha, hb⟩ := hdig
      have h65 : s1 ≠ 65 := by omega
      have h66 : s1 ≠ 66 := by omega
      have h67 : s1 ≠ 67 := by omega
      have h68 : s1 ≠ 68 := by omega
      have h72 : s1 ≠ 72 := by omega
      have h70 : s1 ≠ 70 := by omega
      rcases rest2 with _ | ⟨s2, rest3⟩
      · simp [readKeyEsc, escTable, ha, hb, h65, h66, h67, h68, h72, h70]
      by_cases h126 : s2 = 126
      · subst h126
        by_cases h49 : s1 = 49
        · subst h49; simp [readKeyEsc, escTable]
        by_cases h51 : s1 = 51
        · subst h51; simp [readKeyEsc, escTable]
        by_cases h52 : s1 = 52
        · subst h52; simp [readKeyEsc, escTable]
        by_cases h53 : s1 = 53
        · subst h53; simp [readKeyEsc, escTable]
        by_cases h54 : s1 = 54
        · subst h54; simp [readKeyEsc, escTable]
        by_cases h55 : s1 = 55
        · subst h55; simp [readKeyEsc, escTable]
        by_cases h56 : s1 = 56
        · subst h56; simp [readKeyEsc, escTable]
        simp [readKeyEsc, escTable, ha, hb, h49, h51, h52, h53, h54, h55, h56,
          h65, h66, h67, h68, h72, h70]
      · simp [readKeyEsc, escTable, ha, hb, h126, h65, h66, h67, h68, h72, h70]
    · by_cases h65 : s1 = 65
      · subst h65; simp [readKeyEsc, escTable]
      by_cases h66 : s1 = 66
      · subst h66; simp [readKeyEsc, escTable]
      by_cases h67 : s1 = 67
      · subst h67; simp [readKeyEsc, escTable]
      by_cases h68 : s1 = 68
      · subst h68; simp [readKeyEsc, escTable]
      by_cases h72 : s1 = 72
      · subst h72; simp [readKeyEsc, escTable]
      by_cases h70 : s1 = 70
      · subst h70; simp [readKeyEsc, escTable]
      have h49 : s1 ≠ 49 := by intro h; exact hdig (by omega)
      have h51 : s1 ≠ 51 := by intro h; exact hdig (by omega)
      have h52 : s1 ≠ 52 := by intro h; exact hdig (by omega)
      have h53 : s1 ≠ 53 := by intro h; exact hdig (by omega)
      have h54 : s1 ≠ 54 := by intro h; exact hdig (by omega)
      have h55 : s1 ≠ 55 := by intro h; exact hdig (by omega)
      have h56 : s1 ≠ 56 := by intro h; exact hdig (by omega)
      simp [readKeyEsc, escTable, hdig, h65, h66, h67, h68, h72, h70,
        h49, h51, h52, h53, h54, h55, h56]
  · by_cases h79 : s0 = 79
    · subst h79
      by_cases hH : s1 = 72
      · subst hH; simp [readKeyEsc, escTable]
      by_cases hF : s1 = 70
      · subst hF; simp [readKeyEsc, escTable]
      simp [readKeyEsc, escTable, hH, hF]
    · simp [readKeyEsc, escTable, h0, h79]

/-- C3: `readKey` decodes every input byte stream exactly per the claim's
table (`readKeySpec`): the listed ESC sequences yield the named keys,
every unmatched or incomplete ESC-prefixed sequence (including a lone
ESC) yields the bare Escape, byte 127 passes through (equalling the
Backspace code) as does every other single byte; and the named key codes
are the contiguous integers starting at 1000 in the order ArrowLeft,
ArrowRight, ArrowUp, ArrowDown, DeleteKey, HomeKey, EndKey, PageUp,
PageDown, with Backspace equal to 127. -/
theorem C3_readKey_decode :
    (∀ input : List Nat, readKey input = readKeySpec input)
      ∧ (∀ rest : List Nat, readKey (127 :: rest) = some backspaceKey)
      ∧ backspaceKey = 127
      ∧ arrowLeft = 1000 ∧ arrowRight = 1001 ∧ arrowUp = 1002
      ∧ arrowDown = 1003 ∧ deleteKey = 1004 ∧ homeKey = 1005
      ∧ endKey = 1006 ∧ pageUp = 1007 ∧ pageDown = 1008 := by
  refine ⟨?_, ?_, rfl, rfl, rfl, rfl, rfl, rfl, rfl, rfl, rfl, rfl⟩
  · intro input
    cases input with
    | nil => rfl
    | cons c rest =>
      by_cases hc : c = 27
      · simp [readKey, readKeySpec, hc, readKeyEsc_eq]
      · simp [readKey, readKeySpec, hc]
  · intro rest
    rfl

/-! ## Claim C4 -/

/-- C4: under `OnError::Return` a nonzero child exit code is returned to
the caller without terminating it, and a zero exit code is returned
unchanged under either policy; under `OnError::Fatal` a nonzero code
aborts the caller with exit status 1 — but, because the C++ call site
passes the whole diagnostic as *arguments* to the fmt-based `fatal`
whose format string `"command \""` has no replacement fields, the
rendered diagnostic is exactly `command "`: it contains neither the
command line (`toString`) nor the exit code, contradicting the claim
(and the evident intent of the code). -/
theorem C4_exit_policy :
    (∀ (cmd : Command) (code : Int), cmd.dryRun = false → code ≠ 0 →
        cmd.onError = OnError.Return → Command.run cmd code = RunOutcome.ret code)
      ∧ (∀ cmd : Command, cmd.dryRun = false →
          Command.run cmd 0 = RunOutcome.ret 0)
      ∧ (∀ (cmd : Command) (code : Int), cmd.dryRun = false → code ≠ 0 →
          cmd.onError = OnError.Fatal →
          Command.run cmd code = RunOutcome.fatalExit "command \"" 1)
      ∧ Command.run cmdFalse 1 = RunOutcome.fatalExit "command \"" 1
      ∧ hasSeg (Command.toString cmdFalse).data ("command \"").data = false := by
  refine ⟨?_, ?_, ?_, by decide, by decide⟩
  · intro cmd code hdry hcode hpol
    simp [Command.run, hdry, hcode, hpol]
  · intro cmd hdry
    simp [Command.run, hdry]
  · intro cmd code hdry hcode hpol
    simp [Command.run, hdry, hcode, hpol, fmtNoFields]

/-- C4 witness: the policy theorem applied at `Command("false")` with the
`ReturnCode` policy and child exit code 1. -/
theorem C4_exit_policy_witness :
    cmdFalseReturn.dryRun = false ∧ (1 : Int) ≠ 0
      ∧ cmdFalseReturn.onError = OnError.Return
      ∧ Command.run cmdFalseReturn 1 = RunOutcome.ret 1 :=
  ⟨rfl, by decide, rfl, C4_exit_policy.1 cmdFalseReturn 1 rfl (by decide) rfl⟩

/-! ## Claim C5 -/

/-- C5: `parseTokens` of an empty token list is `none`; otherwise the
result's `commandName` is the first token, its `command` is the registry
lookup (the null pointer, `none`, exactly when no command of that name is
registered), its `args` are the remaining tokens in order, and `numArgs`
is the maximum of the supplied argument count and the declared parameter
count; `parse(["foo", "bar"])` with `"foo"` unregistered has no command
reference, one argument, and `numArgs() == 1`. -/
theorem C5_parseTokens :
    (∀ vm : Vm, vm.parseTokens [] = none)
      ∧ (∀ (vm : Vm) (t : String) (ts : List String),
          vm.parseTokens (t :: ts)
            = some { commandName := t, command := vm.findCommandPtr t, args := ts })
      ∧ (∀ (vm : Vm) (t : String),
          (vm.findCommandPtr t = none ↔ vm.commands.lookup t = none))
      ∧ (∀ (vm : Vm) (t : String) (ts : List String),
          (ParseResult.mk t (vm.findCommandPtr t) ts).numArgs
            = max ts.length
                (((vm.findCommandPtr t).map VmCommand.numParams).getD 0))
      ∧ (Vm.mk [] []).parseTokens ["foo", "bar"]
          = some { commandName := "foo", command := none, args := ["bar"] }
      ∧ (ParseResult.mk "foo" none ["bar"]).numArgs = 1 := by
  refine ⟨fun vm => rfl, fun vm t ts => rfl, fun vm t => Iff.rfl, ?_, rfl, rfl⟩
  intro vm t ts
  cases h : vm.findCommandPtr t with
  | none => simp [ParseResult.numArgs]
  | some c => simp [ParseResult.numArgs, VmCommand.numParams]

/-! ## Claim C8 -/

/-- Resolving a parameter-id list aborts exactly when some id has no
registered parameter type. -/
theorem resolveParams_error_iff (vm : Vm) (ps : List String) :
    (∃ e, vm.resolveParams ps = Except.error e)
      ↔ ∃ p ∈ ps, vm.params.lookup p = none := by
  induction ps with
  | nil => simp [Vm.resolveParams]
  | cons p ps ih =>
    cases hl : vm.params.lookup p with
    | none =>
      constructor
      · intro _
        exact ⟨p, List.mem_cons_self p ps, hl⟩
      · intro _
        refine ⟨fmtNoFields "invalid param id {:s}" [p], ?_⟩
        simp [Vm.resolveParams, Vm.getParamE, hl, Bind.bind, Except.bind]
    | some v =>
      cases hr : vm.resolveParams ps with
      | error e =>
        constructor
        · intro _
          obtain ⟨q, hq, hqn⟩ := ih.mp ⟨e, hr⟩
          exact ⟨q, List.mem_cons_of_mem p hq, hqn⟩
        · intro _
          refine ⟨e, ?_⟩
          simp [Vm.resolveParams, Vm.getParamE, hl, hr, Bind.bind, Except.bind]
      | ok vs =>
        constructor
        · rintro ⟨e, he⟩
          exfalso
          simp [Vm.resolveParams, Vm.getParamE, hl, hr, Bind.bind, Except.bind,
            pure, Except.pure] at he
        · rintro ⟨q, hq, hqn⟩
          exfalso
          rcases List.mem_cons.mp hq with h | h
          · subst h
            rw [hl] at hqn
            exact Option.noConfusion hqn
          · obtain ⟨e, he⟩ := ih.mpr ⟨q, h, hqn⟩
            rw [hr] at he
            exact Except.noConfusion he

/-- `addCommandE` succeeds exactly by resolving the parameter list and
`try_emplace`-ing the command. -/
theorem addCommandE_ok_iff (vm : Vm) (id : String) (ps : List String) (vm' : Vm) :
    vm.addCommandE id ps = Except.ok vm'
      ↔ ∃ rs, vm.resolveParams ps = Except.ok rs
          ∧ vm' = { vm with commands := tryEmplace vm.commands id { posParams := rs } } := by
  cases hr : vm.resolveParams ps with
  | error e =>
    simp [Vm.addCommandE, Bind.bind, Except.bind, hr]
  | ok rs =>
    simp only [Vm.addCommandE, Bind.bind, Except.bind, hr, pure, Except.pure]
    constructor
    · intro h
      cases h
      exact ⟨rs, rfl, rfl⟩
    · rintro ⟨rs', hrs', hvm'⟩
      cases hrs'
      rw [hvm']

/-- C8: registering a command whose parameter-name list contains a name
with no registered `ParamType` aborts at registration time (and only
then: `addCommandE` errors exactly when some id is unregistered), while
`parseTokens`, written in the same abort-capable monad, returns
successfully on every `Vm` and token list — the configuration-error class
cannot surface at parse time. -/
theorem C8_registration_fatal :
    (∀ (vm : Vm) (id : String) (paramIds : List String),
        (∃ e, vm.addCommandE id paramIds = Except.error e)
          ↔ ∃ p ∈ paramIds, vm.params.lookup p = none)
      ∧ (∀ (vm : Vm) (tokens : List String),
          vm.parseTokensE tokens = Except.ok (vm.parseTokens tokens)) := by
  constructor
  · intro vm id paramIds
    rw [← resolveParams_error_iff]
    cases hr : vm.resolveParams paramIds with
    | error e =>
      constructor
      · intro _
        exact ⟨e, rfl⟩
      · intro _
        refine ⟨e, ?_⟩
        simp [Vm.addCommandE, Bind.bind, Except.bind, hr]
    | ok rs =>
      constructor
      · rintro ⟨e, he⟩
        exfalso
        simp [Vm.addCommandE, Bind.bind, Except.bind, hr, pure, Except.pure] at he
      · rintro ⟨e, he⟩
        exact Except.noConfusion he
  · intro vm tokens
    cases tokens <;> rfl

/-! ## Claim C6 -/

/-- A pump that completes normally was ended by a length-0 read or by
`EIO` (peer closed) — never by another error. -/
theorem pump_done_head (evs : List ReadEv) :
    ∀ (acc out : String), pumpFdToStream evs acc = PumpResult.done out →
      (evs.dropWhile skippable).head? = some ReadEv.eof
        ∨ (evs.dropWhile skippable).head? = some (ReadEv.err Errno.eio) := by
  induction evs with
  | nil =>
    intro acc out h
    exact absurd h (by simp [pumpFdToStream])
  | cons ev rest ih =>
    intro acc out h
    cases ev with
    | chunk s =>
      simp only [pumpFdToStream] at h
      simpa [List.dropWhile, skippable] using ih (acc ++ s) out h
    | eof =>
      left
      simp [List.dropWhile, skippable]
    | err e =>
      cases e with
      | eintr =>
        simp only [pumpFdToStream] at h
        simpa [List.dropWhile, skippable] using ih acc out h
      | eio =>
        right
        simp [List.dropWhile, skippable]
      | other =>
        simp [pumpFdToStream] at h

/-- A pump aborts only on a read error that is neither `EINTR` nor
`EIO`. -/
theorem pump_fatal_head (evs : List ReadEv) :
    ∀ (acc m : String) (st : Int),
      pumpFdToStream evs acc = PumpResult.fatalExit m st →
      (evs.dropWhile skippable).head? = some (ReadEv.err Errno.other) := by
  induction evs with
  | nil =>
    intro acc m st h
    exact absurd h (by simp [pumpFdToStream])
  | cons ev rest ih =>
    intro acc m st h
    cases ev with
    | chunk s =>
      simp only [pumpFdToStream] at h
      simpa [List.dropWhile, skippable] using ih (acc ++ s) m st h
    | eof =>
      simp [pumpFdToStream] at h
    | err e =>
      cases e with
      | eintr =>
        simp only [pumpFdToStream] at h
        simpa [List.dropWhile, skippable] using ih acc m st h
      | eio =>
        simp [pumpFdToStream] at h
      | other =>
        simp [List.dropWhile, skippable]

/-- C6 counterexample: a read failing with `EIO` — a read error other than
an interruption — is treated by `pumpFdToStream` as a normal end of
stream (the pump completes and flushes), not as a fatal error, contrary
to the claim that every non-`EINTR` read error is fatal. -/
theorem C6_counterexample :
    pumpFdToStream [ReadEv.err Errno.eio] "" = PumpResult.done "" := by
  decide

/-- C6 (amended): the parent drains each pipe until a length-0 read,
treating an interrupted read (`EINTR`) as a retry, a read failing with
`EIO` (child side closed) as a normal end of stream, and any other read
error as fatal (terminating the process with a diagnostic and status 1);
a pump never ends normally except on a length-0 read or `EIO`, and never
aborts except on such another error. -/
theorem C6_pump_error_handling :
    (∀ (rest : List ReadEv) (acc s : String),
        pumpFdToStream (ReadEv.chunk s :: rest) acc = pumpFdToStream rest (acc ++ s))
      ∧ (∀ (rest : List ReadEv) (acc : String),
          pumpFdToStream (ReadEv.err Errno.eintr :: rest) acc = pumpFdToStream rest acc)
      ∧ (∀ (rest : List ReadEv) (acc : String),
          pumpFdToStream (ReadEv.eof :: rest) acc = PumpResult.done acc)
      ∧ (∀ (rest : List ReadEv) (acc : String),
          pumpFdToStream (ReadEv.err Errno.eio :: rest) acc = PumpResult.done acc)
      ∧ (∀ (rest : List ReadEv) (acc : String),
          pumpFdToStream (ReadEv.err Errno.other :: rest) acc
            = PumpResult.fatalExit "read() failed: " 1)
      ∧ (∀ (evs : List ReadEv) (acc out : String),
          pumpFdToStream evs acc = PumpResult.done out →
            (evs.dropWhile skippable).head? = some ReadEv.eof
              ∨ (evs.dropWhile skippable).head? = some (ReadEv.err Errno.eio))
      ∧ (∀ (evs : List ReadEv) (acc m : String) (st : Int),
          pumpFdToStream evs acc = PumpResult.fatalExit m st →
            (evs.dropWhile skippable).head? = some (ReadEv.err Errno.other)) :=
  ⟨fun _ _ _ => rfl, fun _ _ => rfl, fun _ _ => rfl, fun _ _ => rfl, fun _ _ => rfl,
    fun evs acc out => pump_done_head evs acc out,
    fun evs acc m st => pump_fatal_head evs acc m st⟩

/-- C6 witness: the normal-completion characterisation applied at the
event list `[chunk "x", eof]`. -/
theorem C6_pump_error_handling_witness :
    pumpFdToStream [ReadEv.chunk "x", ReadEv.eof] "" = PumpResult.done "x"
      ∧ (([ReadEv.chunk "x", ReadEv.eof].dropWhile skippable).head?
            = some ReadEv.eof
          ∨ ([ReadEv.chunk "x", ReadEv.eof].dropWhile skippable).head?
              = some (ReadEv.err Errno.eio)) :=
  ⟨by decide,
    C6_pump_error_handling.2.2.2.2.2.1 [ReadEv.chunk "x", ReadEv.eof] "" "x"
      (by decide)⟩

/-! ## Claim C7 -/

theorem isErr_false_of_isOut {a : PipeAct} (h : a.isOut = true) :
    a.isErr = false := by
  cases a <;> simp_all [PipeAct.isOut, PipeAct.isErr]

theorem isOut_false_of_isErr {a : PipeAct} (h : a.isErr = true) :
    a.isOut = false := by
  cases a <;> simp_all [PipeAct.isOut, PipeAct.isErr]

/-- Every action a pump trace emits is its own read, write, or flush
action. -/
theorem pumpTrace_mem (p : PipeAct → Bool) (rd : PipeAct)
    (wr : String → PipeAct) (fl : PipeAct) (hrd : p rd = true)
    (hwr : ∀ s, p (wr s) = true) (hfl : p fl = true) :
    ∀ evs : List ReadEv, ∀ a ∈ (pumpTrace rd wr fl evs).1, p a = true := by
  intro evs
  induction evs with
  | nil =>
    intro a ha
    simp [pumpTrace] at ha
    subst ha
    exact hrd
  | cons ev rest ih =>
    intro a ha
    cases ev with
    | chunk s =>
      simp only [pumpTrace, List.mem_cons] at ha
      rcases ha with h | h | h
      · subst h; exact hrd
      · subst h; exact hwr s
      · exact ih a h
    | eof =>
      simp only [pumpTrace, List.mem_cons, List.mem_singleton] at ha
      rcases ha with h | h | h
      · subst h; exact hrd
      · subst h; exact hfl
      · exact absurd h (List.not_mem_nil a)
    | err e =>
      cases e with
      | eintr =>
        simp only [pumpTrace, List.mem_cons] at ha
        rcases ha with h | h
        · subst h; exact hrd
        · exact ih a h
      | eio =>
        simp only [pumpTrace, List.mem_cons, List.mem_singleton] at ha
        rcases ha with h | h | h
        · subst h; exact hrd
        · subst h; exact hfl
        · exact absurd h (List.not_mem_nil a)
      | other =>
        simp only [pumpTrace, List.mem_singleton] at ha
        subst ha
        exact hrd

/-- The `runPipe` trace splits into a prefix free of stderr actions and a
suffix free of stdout actions. -/
theorem runPipeTrace_split (outEvs errEvs : List ReadEv) :
    ∃ A B, runPipeTrace outEvs errEvs = A ++ B
      ∧ (∀ a ∈ A, a.isErr = false) ∧ (∀ a ∈ B, a.isOut = false) := by
  have houtAll : ∀ a ∈ (pumpTrace PipeAct.readOut PipeAct.writeOut
      PipeAct.flushOut outEvs).1, a.isErr = false := by
    intro a ha
    exact isErr_false_of_isOut
      (pumpTrace_mem PipeAct.isOut PipeAct.readOut PipeAct.writeOut
        PipeAct.flushOut rfl (fun _ => rfl) rfl outEvs a ha)
  have herrAll : ∀ a ∈ (pumpTrace PipeAct.readErr PipeAct.writeErr
      PipeAct.flushErr errEvs).1, a.isOut = false := by
    intro a ha
    exact isOut_false_of_isErr
      (pumpTrace_mem PipeAct.isErr PipeAct.readErr PipeAct.writeErr
        PipeAct.flushErr rfl (fun _ => rfl) rfl errEvs a ha)
  by_cases ho : (pumpTrace PipeAct.readOut PipeAct.writeOut PipeAct.flushOut outEvs).2
  · by_cases he : (pumpTrace PipeAct.readErr PipeAct.writeErr PipeAct.flushErr errEvs).2
    · refine ⟨(pumpTrace PipeAct.readOut PipeAct.writeOut PipeAct.flushOut outEvs).1
          ++ [PipeAct.closeOut],
        (pumpTrace PipeAct.readErr PipeAct.writeErr PipeAct.flushErr errEvs).1
          ++ [PipeAct.closeErr, PipeAct.reapChild], ?_, ?_, ?_⟩
      · simp [runPipeTrace, ho, he]
      · intro a ha
        rcases List.mem_append.mp ha with h | h
        · exact houtAll a h
        · simp only [List.mem_singleton] at h
          subst h
          rfl
      · intro a ha
        rcases List.mem_append.mp ha with h | h
        · exact herrAll a h
        · rcases List.mem_cons.mp h with h2 | h2
          · subst h2; rfl
          · simp only [List.mem_singleton] at h2
            subst h2
            rfl
    · refine ⟨(pumpTrace PipeAct.readOut PipeAct.writeOut PipeAct.flushOut outEvs).1
          ++ [PipeAct.closeOut],
        (pumpTrace PipeAct.readErr PipeAct.writeErr PipeAct.flushErr errEvs).1,
        ?_, ?_, herrAll⟩
      · simp [runPipeTrace, ho, he]
      · intro a ha
        rcases List.mem_append.mp ha with h | h
        · exact houtAll a h
        · simp only [List.mem_singleton] at h
          subst h
          rfl
  · refine ⟨(pumpTrace PipeAct.readOut PipeAct.writeOut PipeAct.flushOut outEvs).1,
      [], ?_, houtAll, by simp⟩
    simp [runPipeTrace, ho]

/-- In a list split into an err-free prefix and an out-free suffix, every
out action precedes every err action. -/
theorem split_index_lt (A B : List PipeAct)
    (hA : ∀ a ∈ A, a.isErr = false) (hB : ∀ a ∈ B, a.isOut = false)
    (i j : Nat) (ai aj : PipeAct)
    (hi : (A ++ B).get? i = some ai) (hj : (A ++ B).get? j = some aj)
    (hout : ai.isOut = true) (herr : aj.isErr = true) : i < j := by
  have hiA : i < A.length := by
    by_contra hcon
    push_neg at hcon
    rw [List.get?_append_right hcon] at hi
    have hmem : ai ∈ B := List.get?_mem hi
    rw [hB ai hmem] at hout
    exact Bool.noConfusion hout
  have hjB : A.length ≤ j := by
    by_contra hcon
    push_neg at hcon
    rw [List.get?_append hcon] at hj
    have hmem : aj ∈ A := List.get?_mem hj
    rw [hA aj hmem] at herr
    exact Bool.noConfusion herr
  omega

/-- C7: in PipeCapture mode, every action on the stdout pipe or the out
sink (reads, sink writes, the flush, the close) occurs strictly before
every action on the stderr pipe or the err sink, for all events the two
pipes may deliver: stdout is drained to completion and flushed before any
stderr read happens. -/
theorem C7_stdout_before_stderr :
    ∀ (outEvs errEvs : List ReadEv) (i j : Nat) (ai aj : PipeAct),
      (runPipeTrace outEvs errEvs).get? i = some ai →
      (runPipeTrace outEvs errEvs).get? j = some aj →
      ai.isOut = true → aj.isErr = true → i < j := by
  intro outEvs errEvs i j ai aj hi hj hout herr
  obtain ⟨A, B, heq, hA, hB⟩ := runPipeTrace_split outEvs errEvs
  rw [heq] at hi hj
  exact split_index_lt A B hA hB i j ai aj hi hj hout herr

/-- C7 witness: in the trace for one stdout chunkless end and one stderr
chunkless end, the first stdout read (index 0) precedes the first stderr
read (index 3). -/
theorem C7_stdout_before_stderr_witness :
    (runPipeTrace [ReadEv.eof] [ReadEv.eof]).get? 0 = some PipeAct.readOut
      ∧ (runPipeTrace [ReadEv.eof] [ReadEv.eof]).get? 3 = some PipeAct.readErr
      ∧ PipeAct.isOut PipeAct.readOut = true
      ∧ PipeAct.isErr PipeAct.readErr = true
      ∧ (0 : Nat) < 3 :=
  ⟨by decide, by decide, rfl, rfl,
    C7_stdout_before_stderr [ReadEv.eof] [ReadEv.eof] 0 3 PipeAct.readOut
      PipeAct.readErr (by decide) (by decide) rfl rfl⟩

/-! ## Claim C9 -/

theorem okSpacing_tail (a : Char) (l : List Char)
    (h : okSpacing (a :: l) = true) : okSpacing l = true := by
  cases l with
  | nil => rfl
  | cons b rest =>
    simp only [okSpacing, Bool.and_eq_true] at h
    exact h.2

theorem mk_reverse_ne_empty (cur : List Char) (h : cur ≠ []) :
    String.mk cur.reverse ≠ "" := by
  intro hc
  have h2 : cur.reverse = [] := by
    simpa [data_mk] using congrArg String.data hc
  simp only [List.reverse_eq_nil_iff] at h2
  exact h h2

/-- Every token emitted by the `getline` loop is non-empty, provided no
two spaces are adjacent and the current `getline` call did not start at a
space (or has already read a character). -/
theorem tokGo_ne_empty (l : List Char) :
    ∀ cur : List Char, okSpacing l = true →
      (cur = [] → ∃ c cs, l = c :: cs ∧ c ≠ ' ') →
      ∀ t ∈ tokGo cur l, t ≠ "" := by
  induction l with
  | nil =>
    intro cur _ hcur t ht
    have hcne : cur ≠ [] := by
      intro h
      obtain ⟨c, cs, hl, _⟩ := hcur h
      exact List.noConfusion hl
    simp only [tokGo, List.mem_singleton] at ht
    subst ht
    exact mk_reverse_ne_empty cur hcne
  | cons c rest ih =>
    intro cur hok hcur t ht
    by_cases hc : c = ' '
    · subst hc
      have hcne : cur ≠ [] := by
        intro h
        obtain ⟨d, ds, hl, hd⟩ := hcur h
        injection hl with h1 _
        exact hd h1.symm
      cases rest with
      | nil =>
        simp [tokGo] at ht
        subst ht
        exact mk_reverse_ne_empty cur hcne
      | cons r rs =>
        have hok2 : okSpacing (r :: rs) = true := okSpacing_tail _ _ hok
        have hr : r ≠ ' ' := by
          intro hrr
          subst hrr
          simp [okSpacing] at hok
        simp only [tokGo, if_pos rfl] at ht
        rcases List.mem_cons.mp ht with h | h
        · subst h
          exact mk_reverse_ne_empty cur hcne
        · exact ih [] hok2 (fun _ => ⟨r, rs, rfl, hr⟩) t h
    · have hok2 : okSpacing rest = true := okSpacing_tail _ _ hok
      simp only [tokGo, if_neg hc] at ht
      exact ih (c :: cur) hok2 (fun h => List.noConfusion h) t ht

/-- C9 counterexample: `getline`-based space splitting does emit empty
tokens — two consecutive spaces produce one: `tokenize "a  b"` contains
the empty token. -/
theorem C9_counterexample :
    tokenize "a  b" = ["a", "", "b"] ∧ "" ∈ tokenize "a  b" := by
  decide

/-- C9 (amended): `tokenize` never produces an empty token provided the
line does not begin with a space and contains no two consecutive spaces
(otherwise empty tokens do occur, as the counterexample shows). -/
theorem C9_tokenize_nonempty (s : String)
    (hhead : s.data.head? ≠ some ' ') (hsp : okSpacing s.data = true) :
    ∀ t ∈ tokenize s, t ≠ "" := by
  intro t ht
  cases hd : s.data with
  | nil =>
    rw [tokenize, hd] at ht
    simp at ht
  | cons c cs =>
    rw [tokenize, hd] at ht
    have hc : c ≠ ' ' := by
      rw [hd] at hhead
      simpa using hhead
    rw [hd] at hsp
    exact tokGo_ne_empty (c :: cs) [] hsp (fun _ => ⟨c, cs, rfl, hc⟩) t ht

/-- C9 witness: the amended theorem applied at the line `"a b"` and its
token `"a"`. -/
theorem C9_tokenize_nonempty_witness :
    ("a b" : String).data.head? ≠ some ' '
      ∧ okSpacing ("a b" : String).data = true
      ∧ "a" ∈ tokenize "a b"
      ∧ "a" ≠ "" :=
  ⟨by decide, by decide, by decide,
    C9_tokenize_nonempty "a b" (by decide) (by decide) "a" (by decide)⟩

/-! ## Claim C10 -/

theorem lookup_assocSet {α : Type} (l : List (String × α)) (k : String) (v : α) :
    (assocSet l k v).lookup k = some v := by
  induction l with
  | nil => simp [assocSet, List.lookup]
  | cons p rest ih =>
    obtain ⟨k', v'⟩ := p
    by_cases hk : k' = k
    · subst hk
      simp [assocSet, List.lookup]
    · have hbeq : (k == k') = false := beq_eq_false_iff_ne.mpr (Ne.symm hk)
      simp only [assocSet, if_neg hk, List.lookup, hbeq]
      exact ih

theorem lookup_tryEmplace_none {α : Type} (l : List (String × α)) (k : String)
    (v : α) (h : l.lookup k = none) : (tryEmplace l k v).lookup k = some v := by
  induction l with
  | nil => simp [tryEmplace, List.lookup]
  | cons p rest ih =>
    obtain ⟨k', v'⟩ := p
    by_cases hk : k' = k
    · subst hk
      simp [List.lookup] at h
    · have hbeq : (k == k') = false := beq_eq_false_iff_ne.mpr (Ne.symm hk)
      simp only [List.lookup, hbeq] at h
      simp only [tryEmplace, if_neg hk, List.lookup, hbeq]
      exact ih h

theorem lookup_tryEmplace_some {α : Type} (l : List (String × α)) (k : String)
    (v w : α) (h : l.lookup k = some w) :
    (tryEmplace l k v).lookup k = some w := by
  induction l with
  | nil => simp [List.lookup] at h
  | cons p rest ih =>
    obtain ⟨k', v'⟩ := p
    by_cases hk : k' = k
    · subst hk
      simp only [tryEmplace, if_pos rfl]
      exact h
    · have hbeq : (k == k') = false := beq_eq_false_iff_ne.mpr (Ne.symm hk)
      simp only [List.lookup, hbeq] at h
      simp only [tryEmplace, if_neg hk, List.lookup, hbeq]
      exact ih h

/-- C10: a second `addCommand` under an already-registered name leaves the
first registration in place (`try_emplace` does not overwrite):
`findCommandPtr` and every subsequent parse still resolve the name to the
definition built from the first parameter list — unlike `addParam`, which
replaces the earlier `ParamType` registered under the same name. -/
theorem C10_addCommand_keeps_first :
    (∀ (vm : Vm) (n : String) (ps1 ps2 : List String) (rs1 : List VmParam)
        (vm1 vm2 : Vm),
        vm.findCommandPtr n = none →
        vm.resolveParams ps1 = Except.ok rs1 →
        vm.addCommandE n ps1 = Except.ok vm1 →
        vm1.addCommandE n ps2 = Except.ok vm2 →
          vm1.findCommandPtr n = some { posParams := rs1 }
          ∧ vm2.findCommandPtr n = some { posParams := rs1 }
          ∧ ∀ ts : List String,
              vm2.parseTokens (n :: ts)
                = some { commandName := n,
                         command := some { posParams := rs1 },
                         args := ts })
      ∧ (∀ (vm : Vm) (n : String) (g1 g2 : String → Bool),
          ((vm.addParam n g1).addParam n g2).params.lookup n
            = some { type := n, validate := g2 }) := by
  constructor
  · intro vm n ps1 ps2 rs1 vm1 vm2 hnone hres h1 h2
    obtain ⟨rs1', hres', hvm1⟩ := (addCommandE_ok_iff vm n ps1 vm1).mp h1
    rw [hres] at hres'
    injection hres' with hrs
    subst hrs
    obtain ⟨rs2, _, hvm2⟩ := (addCommandE_ok_iff vm1 n ps2 vm2).mp h2
    have hfind1 : vm1.findCommandPtr n = some { posParams := rs1 } := by
      rw [hvm1]
      exact lookup_tryEmplace_none vm.commands n _ hnone
    have hfind2 : vm2.findCommandPtr n = some { posParams := rs1 } := by
      rw [hvm2]
      exact lookup_tryEmplace_some vm1.commands n _ _ hfind1
    refine ⟨hfind1, hfind2, ?_⟩
    intro ts
    simp [Vm.parseTokens, hfind2]
  · intro vm n g1 g2
    exact lookup_assocSet _ n _

/-- C10 witness: registering `"print1"` twice on a concrete registry keeps
the first definition; the duplicated `addParam` replaces. -/
theorem C10_addCommand_keeps_first_witness :
    vmW0.findCommandPtr "print1" = none
      ∧ vmW0.resolveParams ["string"]
          = Except.ok [{ type := "string", validate := nonEmptyPred }]
      ∧ vmW0.addCommandE "print1" ["string"] = Except.ok vmW1
      ∧ vmW1.addCommandE "print1" ["string", "string"] = Except.ok vmW1
      ∧ vmW1.findCommandPtr "print1"
          = some { posParams := [{ type := "string", validate := nonEmptyPred }] }
      ∧ vmW1.parseTokens ["print1", "hi"]
          = some { commandName := "print1",
                   command :=
                     some { posParams := [{ type := "string", validate := nonEmptyPred }] },
                   args := ["hi"] } := by
  have h := C10_addCommand_keeps_first.1 vmW0 "print1" ["string"]
      ["string", "string"] [{ type := "string", validate := nonEmptyPred }]
      vmW1 vmW1 rfl rfl rfl rfl
  exact ⟨rfl, rfl, rfl, rfl, h.1, h.2.2 ["hi"]⟩

end Crew
